import Mathlib

/-!
# Verification of the leaderboard server (src/server.js)

A shallow embedding of the leaderboard core of `server.js`:

* `loadLeaderboard` embeds `loadLeaderboard()` (lines 39–55), over an
  abstract view of the backing storage (`Storage`).
* `saveLeaderboardOps` embeds `saveLeaderboard(data)` (lines 57–59) as the
  list of file-system operations it performs.
* `topTen` embeds the GET `/api/leaderboard` handler body (lines 84–89).
* `postSubmit` embeds the POST `/api/leaderboard` handler body
  (lines 91–161); the handler is fully synchronous JavaScript
  (`readFileSync`/`writeFileSync`, no `await`), so the Node.js event loop
  runs each load–merge–save cycle to completion before the next begins;
  `processAll` chains such atomic cycles.

JavaScript numbers are modelled as exact rationals (`ℚ`) together with the
non-finite values NaN and ±Infinity (`JsVal`); all arithmetic appearing in
the handler is exact at the magnitudes involved.  `Array.prototype.sort`
(stable in modern engines) is modelled by the stable `List.insertionSort`:
for a total transitive comparator a stable sort's output is unique.
-/

/-- Whitespace class used when trimming a submitted name. -/
def jsWhitespace (c : Char) : Bool :=
  c.isWhitespace

/-- Embedding of `String.prototype.trim`: drop leading and trailing
whitespace. -/
def jsTrim (s : String) : String :=
  String.mk (((s.data.dropWhile jsWhitespace).reverse.dropWhile jsWhitespace).reverse)

/-- Embedding of `String.prototype.slice(0, n)`: the first `n` characters. -/
def jsTake (s : String) (n : Nat) : String :=
  String.mk (s.data.take n)

/-- One leaderboard record as stored in `leaderboard.json` / kept by the
server: `{name, money, rebirth, updatedAt}` (the spec's
`LeaderboardEntry` with `score = money`, `tier = rebirth`). -/
structure Entry where
  name : String
  money : ℚ
  rebirth : ℚ
  updatedAt : ℚ
deriving DecidableEq

/-- A raw record as parsed from the JSON file: the `rebirth` field may be
absent (legacy records), modelled as `Option`. -/
structure RawEntry where
  name : String
  money : ℚ
  rebirth : Option ℚ
  updatedAt : ℚ
deriving DecidableEq

/-- Result of `JSON.parse` on the file contents: a JS array of records, or
some non-array value. -/
inductive Parsed where
  | arr (items : List RawEntry)
  | nonArray
deriving DecidableEq

/-- Abstract view of the backing file for `loadLeaderboard`: the file may be
missing (`readFileSync` throws), unparseable (`JSON.parse` throws), or hold
a parsed JSON value. -/
inductive Storage where
  | missing
  | unparseable
  | parsed (p : Parsed)
deriving DecidableEq

/-- Embedding of `loadLeaderboard()` (server.js lines 39–55): a throw from
`readFileSync`/`JSON.parse` is caught and yields `[]`; a non-array parse
yields `[]`; otherwise every record lacking `rebirth` gets `rebirth: 0`. -/
def loadLeaderboard : Storage → List Entry
  | .missing => []
  | .unparseable => []
  | .parsed .nonArray => []
  | .parsed (.arr items) =>
      items.map fun it => ⟨it.name, it.money, it.rebirth.getD 0, it.updatedAt⟩

/-- A JavaScript number: a finite value (exact rational), `NaN`, or
`±Infinity`.  Fields of a request body are represented by their value
after `Number(·)` coercion (`Number(undefined) = NaN`, so an absent field
is `nan`). -/
inductive JsVal where
  | num (q : ℚ)
  | nan
  | inf
  | negInf
deriving DecidableEq

/-- JS falsiness of a number: `NaN` and `±0` are falsy. -/
def JsVal.isFalsy : JsVal → Bool
  | .num q => q == 0
  | .nan => true
  | _ => false

/-- Embedding of the JS expression `v || 0` on numbers (server.js
line 108): a falsy value is replaced by `0`. -/
def jsOr0 (v : JsVal) : JsVal :=
  if v.isFalsy then .num 0 else v

/-- `Number.isInteger`-style view: `some z` when the value is a finite
integer `z`, `none` otherwise (fractional, `NaN`, `±Infinity`). -/
def JsVal.intValue? : JsVal → Option ℤ
  | .num q => if q.den = 1 then some q.num else none
  | .nan => none
  | .inf => none
  | .negInf => none

/-- An incoming POST body `{name, money, rebirth}`: `name` is `some s`
when the field is a string (else `none`, covering absent and non-string
values, which fail the `typeof` check); `money` and `rebirth` are the
values after `Number(·)` coercion. -/
structure Req where
  name : Option String
  money : JsVal
  rebirth : JsVal
deriving DecidableEq

/-- A response body: `{ok: true}` or `{message: s}`. -/
inductive Body where
  | okJson
  | msg (s : String)
deriving DecidableEq

/-- Observable outcome of one POST handler run: HTTP status, JSON body, and
the collection passed to `saveLeaderboard` (`none` when the handler
returned without saving). -/
structure PostResult where
  status : Nat
  body : Body
  saved : Option (List Entry)
deriving DecidableEq

/-- The ordering realized by the comparator at server.js lines 152–156:
`a` may precede `b` iff the comparator value `cmp(a,b) ≤ 0`, i.e. higher
`rebirth` first, ties broken by higher `money` first. -/
def rankLE (a b : Entry) : Prop :=
  b.rebirth < a.rebirth ∨ (a.rebirth = b.rebirth ∧ b.money ≤ a.money)

instance : DecidableRel rankLE := fun a b => by
  unfold rankLE; infer_instance

instance : IsTotal Entry rankLE where
  total a b := by
    unfold rankLE
    rcases lt_trichotomy a.rebirth b.rebirth with h | h | h
    · exact Or.inr (Or.inl h)
    · rcases le_total b.money a.money with hm | hm
      · exact Or.inl (Or.inr ⟨h, hm⟩)
      · exact Or.inr (Or.inr ⟨h.symm, hm⟩)
    · exact Or.inl (Or.inl h)

instance : IsTrans Entry rankLE where
  trans a b c hab hbc := by
    unfold rankLE at *
    rcases hab with h1 | ⟨h1, h1m⟩
    · rcases hbc with h2 | ⟨h2, _⟩
      · exact Or.inl (h2.trans h1)
      · exact Or.inl (h2 ▸ h1)
    · rcases hbc with h2 | ⟨h2, h2m⟩
      · exact Or.inl (h1 ▸ h2)
      · exact Or.inr ⟨h1.trans h2, h2m.trans h1m⟩

/-- The ordering realized by the GET handler's comparator
`(a, b) => b.money - a.money` (server.js line 86): higher `money` first,
`rebirth` ignored. -/
def moneyLE (a b : Entry) : Prop :=
  b.money ≤ a.money

instance : DecidableRel moneyLE := fun a b => by
  unfold moneyLE; infer_instance

instance : IsTotal Entry moneyLE where
  total a b := le_total b.money a.money

instance : IsTrans Entry moneyLE where
  trans _ _ _ hab hbc := le_trans hbc hab

/-- The sort stage of the GET handler (server.js lines 85–87): the loaded
collection stably sorted by the money-descending comparator. -/
def moneySorted (board : List Entry) : List Entry :=
  board.insertionSort moneyLE

/-- Embedding of the GET `/api/leaderboard` handler body (server.js lines
84–89) applied to the loaded collection: sort by `money` descending, take
the first 10. -/
def topTen (board : List Entry) : List Entry :=
  (board.insertionSort moneyLE).take 10

/-- Embedding of `leaderboard.findIndex(item => item.name === cleanName)`
followed by the read `leaderboard[existingIndex]` (server.js lines 122,
126): the first entry with the given name, if any. -/
def findByName? (nm : String) : List Entry → Option Entry
  | [] => none
  | x :: xs => if x.name = nm then some x else findByName? nm xs

/-- Embedding of the write `leaderboard[existingIndex] = entry` (server.js
line 145): replace the first entry carrying the given name. -/
def setFirstByName (nm : String) (e : Entry) : List Entry → List Entry
  | [] => []
  | x :: xs => if x.name = nm then e :: xs else x :: setFirstByName nm e xs

/-- The collection as persisted after an accepted submission (server.js
lines 151–157): stable sort by the `rankLE` comparator, then `slice(0, 100)`. -/
def sortTrunc (b : List Entry) : List Entry :=
  (b.insertionSort rankLE).take 100

/-- The sort–truncate–save–respond tail of the POST handler (server.js
lines 151–160): save the sorted, truncated collection and answer
`200 {ok: true}`. -/
def finishBoard (b : List Entry) : PostResult :=
  ⟨200, .okJson, some (sortTrunc b)⟩

/-- The POST handler from the point where `entry` has been built and the
board loaded (server.js lines 121–160): history checks against the
previous entry for the same name, merge, then `finishBoard`. -/
def submitChecked (entry : Entry) (board : List Entry) : PostResult :=
  match findByName? entry.name board with
  | some prev =>
    if (entry.updatedAt - prev.updatedAt) / 1000 < 5 then
      ⟨429, .msg "너무 자주 제출할 수 없습니다.", none⟩
    else if entry.money - prev.money > 150000 * min ((entry.updatedAt - prev.updatedAt) / 1000) 3600 * 1.5
            ∧ entry.money - prev.money > 100000000 then
      ⟨400, .msg "비정상적인 증가량입니다.", none⟩
    else if entry.money > prev.money ∨ entry.rebirth > prev.rebirth then
      finishBoard (setFirstByName entry.name entry board)
    else
      finishBoard board
  | none => finishBoard (board ++ [entry])

/-- Embedding of the POST `/api/leaderboard` handler body (server.js lines
91–161) applied to the loaded collection `board`, with `now` the value of
`Date.now()` in milliseconds: structural validation in source order
(name, money finite/non-negative, money cap, rebirth), then the
history/merge phase `submitChecked`. -/
def postSubmit (r : Req) (board : List Entry) (now : ℚ) : PostResult :=
  match r.name with
  | none => ⟨400, .msg "이름을 입력하세요.", none⟩
  | some nm =>
    if jsTrim nm = "" then ⟨400, .msg "이름을 입력하세요.", none⟩
    else
      match r.money with
      | .num m =>
        if m < 0 then ⟨400, .msg "점수가 올바르지 않습니다.", none⟩
        else if m > 5000000000 then ⟨400, .msg "비정상적인 값입니다.", none⟩
        else
          match (jsOr0 r.rebirth).intValue? with
          | none => ⟨400, .msg "환생 정보가 올바르지 않습니다.", none⟩
          | some z =>
            if z < 0 then ⟨400, .msg "환생 정보가 올바르지 않습니다.", none⟩
            else submitChecked ⟨jsTake (jsTrim nm) 40, (⌊m⌋ : ℚ), (z : ℚ), now⟩ board
      | _ => ⟨400, .msg "점수가 올바르지 않습니다.", none⟩

/-- The identity key under which a submission is stored and matched
(server.js line 113): the name trimmed, then truncated to 40 characters. -/
def cleanName (nm : String) : String :=
  jsTake (jsTrim nm) 40

attribute [local semireducible] Rat.sub Rat.mul Rat.inv Rat.add Rat.ofScientific

example : postSubmit ⟨some "alice", .num 1000, .num 0⟩ [] 0 =
    ⟨200, .okJson, some [⟨"alice", 1000, 0, 0⟩]⟩ := by decide

example : postSubmit ⟨some "alice", .num 50, .num 0⟩ [⟨"alice", 100, 0, 0⟩] 10000 =
    ⟨200, .okJson, some [⟨"alice", 100, 0, 0⟩]⟩ := by decide

example : postSubmit ⟨some "alice", .num 200, .num 0⟩ [⟨"alice", 100, 0, 0⟩] 3000 =
    ⟨429, .msg "너무 자주 제출할 수 없습니다.", none⟩ := by decide

example : postSubmit ⟨some "carol", .num 100, .nan⟩ [] 0 =
    ⟨200, .okJson, some [⟨"carol", 100, 0, 0⟩]⟩ := by decide

example : topTen [⟨"A", 5, 1, 0⟩, ⟨"B", 10, 0, 0⟩] =
    [⟨"B", 10, 0, 0⟩, ⟨"A", 5, 1, 0⟩] := by decide

/-! ## Helper lemmas about the board operations -/

theorem findByName?_eq_none {nm : String} {l : List Entry} :
    findByName? nm l = none ↔ nm ∉ l.map Entry.name := by
  induction l with
  | nil => simp [findByName?]
  | cons x xs ih =>
    by_cases hx : x.name = nm
    · simp [findByName?, hx]
    · simp only [findByName?, if_neg hx, List.map_cons, List.mem_cons]
      rw [ih]
      constructor
      · intro h hor
        rcases hor with he | hm
        · exact hx he.symm
        · exact h hm
      · intro h hm
        exact h (Or.inr hm)

theorem findByName?_eq_some {nm : String} {l : List Entry} {e : Entry}
    (h : findByName? nm l = some e) : e ∈ l ∧ e.name = nm := by
  induction l with
  | nil => simp [findByName?] at h
  | cons x xs ih =>
    by_cases hx : x.name = nm
    · rw [findByName?, if_pos hx] at h
      obtain rfl : x = e := by exact Option.some_inj.mp h
      exact ⟨List.mem_cons_self _ _, hx⟩
    · rw [findByName?, if_neg hx] at h
      obtain ⟨hm, hn⟩ := ih h
      exact ⟨List.mem_cons_of_mem _ hm, hn⟩

theorem map_name_setFirstByName {nm : String} {e : Entry} (l : List Entry)
    (he : e.name = nm) :
    (setFirstByName nm e l).map Entry.name = l.map Entry.name := by
  induction l with
  | nil => simp [setFirstByName]
  | cons x xs ih =>
    by_cases hx : x.name = nm
    · simp [setFirstByName, hx, he]
    · simp [setFirstByName, hx, ih]

theorem perm_sortTrunc_of_le {b : List Entry} (h : b.length ≤ 100) :
    List.Perm (sortTrunc b) b := by
  unfold sortTrunc
  rw [List.take_of_length_le (by simpa using h)]
  exact List.perm_insertionSort rankLE b

theorem nodup_names_sortTrunc {b : List Entry}
    (h : (b.map Entry.name).Nodup) : ((sortTrunc b).map Entry.name).Nodup := by
  unfold sortTrunc
  rw [List.map_take]
  refine List.Nodup.sublist (List.take_sublist _ _) ?_
  exact (((List.perm_insertionSort rankLE b).map Entry.name).nodup_iff).2 h

theorem length_sortTrunc (b : List Entry) : (sortTrunc b).length ≤ 100 :=
  List.length_take_le _ _

theorem sorted_sortTrunc (b : List Entry) : (sortTrunc b).Sorted rankLE :=
  List.Pairwise.sublist (List.take_sublist _ _) (List.sorted_insertionSort rankLE b)

/-- Any saved collection produced by `submitChecked` arises from the loaded
board in one of the three merge shapes of server.js lines 144–149: a push
of a fresh name, an in-place replacement of the matching entry, or the
unchanged board (no-op discard). -/
theorem submitChecked_saved_cases {e : Entry} {board saved : List Entry}
    (h : (submitChecked e board).saved = some saved) :
    (findByName? e.name board = none ∧ saved = sortTrunc (board ++ [e])) ∨
    saved = sortTrunc (setFirstByName e.name e board) ∨
    saved = sortTrunc board := by
  unfold submitChecked at h
  rcases hf : findByName? e.name board with _ | prev <;> rw [hf] at h <;> dsimp only at h
  · exact Or.inl ⟨rfl, (Option.some_inj.mp h).symm⟩
  · split_ifs at h with h1 h2 h3
    · exact Or.inr (Or.inl (Option.some_inj.mp h).symm)
    · exact Or.inr (Or.inr (Option.some_inj.mp h).symm)

/-- Any saved collection produced by the full POST handler is produced by
`submitChecked` for some entry. -/
theorem postSubmit_saved {r : Req} {board saved : List Entry} {tnow : ℚ}
    (h : (postSubmit r board tnow).saved = some saved) :
    ∃ e : Entry, (submitChecked e board).saved = some saved := by
  obtain ⟨nm?, money, reb⟩ := r
  rcases nm? with _ | nm
  · exact absurd h (by simp [postSubmit])
  rcases money with m | _ | _ | _
  · unfold postSubmit at h
    dsimp only at h
    split_ifs at h with h1 h2 h3
    rcases hz : (jsOr0 reb).intValue? with _ | z <;> rw [hz] at h <;> dsimp only at h
    · exact absurd h (by simp)
    · split_ifs at h with h4
      exact ⟨_, h⟩
  · exact absurd h (by simp [postSubmit, apply_ite])
  · exact absurd h (by simp [postSubmit, apply_ite])
  · exact absurd h (by simp [postSubmit, apply_ite])

/-! ## C4: collection invariants after every accepted submission -/

/-- C4: after every accepted submission (one whose handler run saves a
collection), the persisted collection has pairwise-distinct names, length
at most 100 (`MAX_RETAINED`), and is sorted so that no entry ranks below
its successor under the tier-then-score descending order `rankLE` —
provided the loaded collection had pairwise-distinct names. -/
theorem post_invariants (r : Req) (board : List Entry) (tnow : ℚ)
    (saved : List Entry)
    (hnodup : (board.map Entry.name).Nodup)
    (hsaved : (postSubmit r board tnow).saved = some saved) :
    (saved.map Entry.name).Nodup ∧ saved.length ≤ 100 ∧ saved.Sorted rankLE := by
  obtain ⟨e, he⟩ := postSubmit_saved hsaved
  rcases submitChecked_saved_cases he with ⟨hf, rfl⟩ | rfl | rfl
  · refine ⟨nodup_names_sortTrunc ?_, length_sortTrunc _, sorted_sortTrunc _⟩
    rw [List.map_append]
    refine List.nodup_append.2 ⟨hnodup, List.nodup_singleton _, ?_⟩
    intro a ha hb
    simp only [List.map_cons, List.map_nil, List.mem_singleton] at hb
    subst hb
    exact (findByName?_eq_none.1 hf) ha
  · refine ⟨nodup_names_sortTrunc ?_, length_sortTrunc _, sorted_sortTrunc _⟩
    rw [map_name_setFirstByName _ rfl]
    exact hnodup
  · exact ⟨nodup_names_sortTrunc hnodup, length_sortTrunc _, sorted_sortTrunc _⟩

/-- Witness for `post_invariants`: a fresh-name submission onto a one-entry
board. -/
theorem post_invariants_witness :
    (([⟨"alice", 10, 0, 0⟩, ⟨"bob", 5, 0, 0⟩] : List Entry).map Entry.name).Nodup ∧
      ([⟨"alice", 10, 0, 0⟩, ⟨"bob", 5, 0, 0⟩] : List Entry).length ≤ 100 ∧
      ([⟨"alice", 10, 0, 0⟩, ⟨"bob", 5, 0, 0⟩] : List Entry).Sorted rankLE :=
  post_invariants ⟨some "alice", .num 10, .num 0⟩ [⟨"bob", 5, 0, 0⟩] 0
    [⟨"alice", 10, 0, 0⟩, ⟨"bob", 5, 0, 0⟩] (by decide) (by decide)

/-! ## C2: the top-K query -/

/-- C2 counterexample: a persisted collection satisfying the §4.4 sort
invariant (tier descending, then score descending) on which the top-K
query does NOT return its first min(k, size) entries: the GET handler
re-sorts by `money` alone, so the tier-0 entry with more money jumps ahead
of the tier-1 entry. -/
theorem topTen_not_rank_order :
    ([⟨"A", 5, 1, 0⟩, ⟨"B", 10, 0, 0⟩] : List Entry).Sorted rankLE ∧
    topTen [⟨"A", 5, 1, 0⟩, ⟨"B", 10, 0, 0⟩] = [⟨"B", 10, 0, 0⟩, ⟨"A", 5, 1, 0⟩] ∧
    topTen [⟨"A", 5, 1, 0⟩, ⟨"B", 10, 0, 0⟩] ≠
      ([⟨"A", 5, 1, 0⟩, ⟨"B", 10, 0, 0⟩] : List Entry).take (min 10 2) := by
  decide

/-- C2 amended: the top-K query stably re-sorts the persisted collection
by score (`money`) descending alone — ignoring tier — and returns the
first min(10, size) entries of that money-descending order.  Formally,
`moneySorted b` is a permutation of the collection, sorted money-
descending, and stable (every money-descending-ordered sublist of the
collection survives as a sublist of it — the three properties that
determine the stable re-sort uniquely), and the query's output is exactly
its first min(10, size) entries. -/
theorem topTen_spec (b : List Entry) :
    List.Perm (moneySorted b) b ∧
    (moneySorted b).Sorted moneyLE ∧
    (∀ c : List Entry, c.Pairwise moneyLE → c.Sublist b → c.Sublist (moneySorted b)) ∧
    topTen b = (moneySorted b).take 10 ∧
    (topTen b).length = min 10 b.length := by
  refine ⟨List.perm_insertionSort moneyLE b, List.sorted_insertionSort moneyLE b,
    fun c hc hcb => List.sublist_insertionSort hc hcb, rfl, ?_⟩
  unfold topTen
  rw [List.length_take, List.length_insertionSort]

/-- Witness for `topTen_spec`: the money-descending-ordered pair [B, A]
survives the stable re-sort of the rank-sorted collection [A, B]. -/
theorem topTen_spec_witness :
    List.Sublist [(⟨"B", 10, 0, 0⟩ : Entry)]
      (moneySorted [⟨"A", 5, 1, 0⟩, ⟨"B", 10, 0, 0⟩]) :=
  (topTen_spec [⟨"A", 5, 1, 0⟩, ⟨"B", 10, 0, 0⟩]).2.2.1 [⟨"B", 10, 0, 0⟩]
    (by decide) (by rw [List.singleton_sublist]; decide)

/-! ## C9: load fails soft and defaults the tier field -/

/-- C9: `loadLeaderboard` never propagates an error: on missing,
unparseable, or non-array backing storage it returns the empty collection;
on an array it keeps every record (same length, membership pointwise) and
a record lacking the `rebirth` field is loaded with `rebirth = 0`. -/
theorem load_fails_soft :
    (∀ s : Storage, (s = .missing ∨ s = .unparseable ∨ s = .parsed .nonArray) →
      loadLeaderboard s = []) ∧
    (∀ items : List RawEntry,
      (loadLeaderboard (.parsed (.arr items))).length = items.length ∧
      ∀ it ∈ items,
        (⟨it.name, it.money, it.rebirth.getD 0, it.updatedAt⟩ : Entry) ∈
          loadLeaderboard (.parsed (.arr items)) ∧
        (it.rebirth = none →
          (⟨it.name, it.money, 0, it.updatedAt⟩ : Entry) ∈
            loadLeaderboard (.parsed (.arr items)))) := by
  constructor
  · rintro s (rfl | rfl | rfl) <;> rfl
  · intro items
    refine ⟨by simp [loadLeaderboard], ?_⟩
    intro it hit
    constructor
    · exact List.mem_map_of_mem _ hit
    · intro hnone
      have h1 := List.mem_map_of_mem
        (fun it : RawEntry =>
          (⟨it.name, it.money, it.rebirth.getD 0, it.updatedAt⟩ : Entry)) hit
      simpa [loadLeaderboard, hnone] using h1

/-- Witness for `load_fails_soft`: a missing file loads as `[]`, and a
legacy record without `rebirth` loads with `rebirth = 0`. -/
theorem load_fails_soft_witness :
    loadLeaderboard .missing = [] ∧
    (⟨"x", 1, 0, 2⟩ : Entry) ∈ loadLeaderboard (.parsed (.arr [⟨"x", 1, none, 2⟩])) :=
  ⟨load_fails_soft.1 .missing (Or.inl rfl),
   ((load_fails_soft.2 [⟨"x", 1, none, 2⟩]).2 ⟨"x", 1, none, 2⟩ (by decide)).2 rfl⟩

/-! ## Reduction of the POST handler under structural validity -/

/-- Under the structural checks of server.js lines 94–111 (non-empty
trimmed name, finite money in `[0, 5·10⁹]`, rebirth defaulting to a
non-negative integer), the handler reduces to the history/merge phase with
the entry it builds at lines 113–119. -/
theorem postSubmit_eq_submitChecked (nm : String) (m : ℚ) (rb : JsVal) {z : ℤ}
    (board : List Entry) (tnow : ℚ)
    (htrim : ¬ jsTrim nm = "") (h0 : ¬ m < 0) (hcap : ¬ m > 5000000000)
    (hz : (jsOr0 rb).intValue? = some z) (hz0 : ¬ z < 0) :
    postSubmit ⟨some nm, .num m, rb⟩ board tnow =
      submitChecked ⟨jsTake (jsTrim nm) 40, (⌊m⌋ : ℚ), (z : ℚ), tnow⟩ board := by
  unfold postSubmit
  dsimp only
  rw [if_neg htrim, if_neg h0, if_neg hcap, hz]
  dsimp only
  rw [if_neg hz0]

/-! ## C6: history checks (rate limit and implausible increase) -/

/-- C6: for a structurally valid submission whose cleaned name has a
previous entry `prev`, the handler answers 429 (rate limited) exactly when
elapsed seconds `(now − prev.updatedAt)/1000 < 5`, and rejects the
increase as implausible exactly when the rate check passed and the floored
score delta exceeds both `1.5 · (150000 · min(elapsed, 3600))` and `10⁸`;
a name with no previous entry is subject to neither history check: the
submission is accepted with status 200. -/
theorem history_checks (nm : String) (m : ℚ) (rb : JsVal) (z : ℤ)
    (board : List Entry) (tnow : ℚ)
    (htrim : ¬ jsTrim nm = "") (h0 : ¬ m < 0) (hcap : ¬ m > 5000000000)
    (hz : (jsOr0 rb).intValue? = some z) (hz0 : ¬ z < 0) :
    (∀ prev, findByName? (cleanName nm) board = some prev →
      (postSubmit ⟨some nm, .num m, rb⟩ board tnow =
          ⟨429, .msg "너무 자주 제출할 수 없습니다.", none⟩ ↔
        (tnow - prev.updatedAt) / 1000 < 5) ∧
      (postSubmit ⟨some nm, .num m, rb⟩ board tnow =
          ⟨400, .msg "비정상적인 증가량입니다.", none⟩ ↔
        ¬ (tnow - prev.updatedAt) / 1000 < 5 ∧
          ((⌊m⌋ : ℚ) - prev.money >
              150000 * min ((tnow - prev.updatedAt) / 1000) 3600 * 1.5 ∧
            (⌊m⌋ : ℚ) - prev.money > 100000000))) ∧
    (findByName? (cleanName nm) board = none →
      (postSubmit ⟨some nm, .num m, rb⟩ board tnow).status = 200) := by
  rw [postSubmit_eq_submitChecked nm m rb board tnow htrim h0 hcap hz hz0]
  unfold cleanName
  constructor
  · intro prev hprev
    unfold submitChecked
    dsimp only
    rw [hprev]
    dsimp only
    constructor
    · split_ifs with h1 h2 h3
      · exact iff_of_true rfl h1
      · exact iff_of_false (by decide) h1
      · exact iff_of_false (by simp [finishBoard]) h1
      · exact iff_of_false (by simp [finishBoard]) h1
    · split_ifs with h1 h2 h3
      · exact iff_of_false (by decide) (fun hc => hc.1 h1)
      · exact iff_of_true rfl ⟨h1, h2⟩
      · exact iff_of_false (by simp [finishBoard]) (fun hc => h2 hc.2)
      · exact iff_of_false (by simp [finishBoard]) (fun hc => h2 hc.2)
  · intro hnone
    unfold submitChecked
    dsimp only
    rw [hnone]
    rfl

/-- Witness for `history_checks`: the spec's own end-to-end example — a
second submission for "alice" 3 seconds after the first is rate limited. -/
theorem history_checks_witness :
    postSubmit ⟨some "alice", .num 1000000, .num 0⟩ [⟨"alice", 1000, 0, 0⟩] 3000 =
      ⟨429, .msg "너무 자주 제출할 수 없습니다.", none⟩ :=
  ((history_checks "alice" 1000000 (.num 0) 0 [⟨"alice", 1000, 0, 0⟩] 3000
      (by decide) (by decide) (by decide) (by decide) (by decide)).1
    ⟨"alice", 1000, 0, 0⟩ (by decide)).1.mpr (by decide)

/-! ## C5: merge policy and the (un)reported ranked flag -/

/-- C5 counterexample: the response does not report whether a mutation
occurred. A non-improving submission (money 50 against stored 100) and a
strictly improving one (money 200) both answer status 200 with body
`{ok: true}` — the handler's only success response — yet only the second
mutates the stored entry. No `ranked` flag exists in the response. -/
theorem ranked_not_reported_cex :
    (postSubmit ⟨some "alice", .num 50, .num 0⟩ [⟨"alice", 100, 0, 0⟩] 10000).status =
      (postSubmit ⟨some "alice", .num 200, .num 0⟩ [⟨"alice", 100, 0, 0⟩] 10000).status ∧
    (postSubmit ⟨some "alice", .num 50, .num 0⟩ [⟨"alice", 100, 0, 0⟩] 10000).body =
      (postSubmit ⟨some "alice", .num 200, .num 0⟩ [⟨"alice", 100, 0, 0⟩] 10000).body ∧
    (postSubmit ⟨some "alice", .num 50, .num 0⟩ [⟨"alice", 100, 0, 0⟩] 10000).saved =
      some [⟨"alice", 100, 0, 0⟩] ∧
    (postSubmit ⟨some "alice", .num 200, .num 0⟩ [⟨"alice", 100, 0, 0⟩] 10000).saved =
      some [⟨"alice", 200, 0, 10000⟩] := by
  decide

/-- C5 amended: for a validated submission with an existing previous entry
that passes the history checks, the stored entry is replaced if and only
if the submission's floored score strictly exceeds the previous score or
its tier strictly exceeds the previous tier; otherwise the submission
succeeds (status 200, body `{ok: true}` — identical to the mutating case,
so no ranked flag is reported) and the previous entry, including its
`updatedAt` timestamp, survives unchanged in the persisted collection. -/
theorem merge_replace_iff (nm : String) (m : ℚ) (rb : JsVal) (z : ℤ) (prev : Entry)
    (board : List Entry) (tnow : ℚ)
    (htrim : ¬ jsTrim nm = "") (h0 : ¬ m < 0) (hcap : ¬ m > 5000000000)
    (hz : (jsOr0 rb).intValue? = some z) (hz0 : ¬ z < 0)
    (hprev : findByName? (cleanName nm) board = some prev)
    (hrate : ¬ (tnow - prev.updatedAt) / 1000 < 5)
    (himp : ¬ ((⌊m⌋ : ℚ) - prev.money >
        150000 * min ((tnow - prev.updatedAt) / 1000) 3600 * 1.5 ∧
      (⌊m⌋ : ℚ) - prev.money > 100000000))
    (hlen : board.length ≤ 100) :
    (postSubmit ⟨some nm, .num m, rb⟩ board tnow).status = 200 ∧
    (postSubmit ⟨some nm, .num m, rb⟩ board tnow).body = .okJson ∧
    (((⌊m⌋ : ℚ) > prev.money ∨ (z : ℚ) > prev.rebirth) →
      (postSubmit ⟨some nm, .num m, rb⟩ board tnow).saved =
        some (sortTrunc (setFirstByName (cleanName nm)
          ⟨cleanName nm, (⌊m⌋ : ℚ), (z : ℚ), tnow⟩ board))) ∧
    (¬ ((⌊m⌋ : ℚ) > prev.money ∨ (z : ℚ) > prev.rebirth) →
      (postSubmit ⟨some nm, .num m, rb⟩ board tnow).saved = some (sortTrunc board) ∧
      prev ∈ sortTrunc board) := by
  rw [postSubmit_eq_submitChecked nm m rb board tnow htrim h0 hcap hz hz0]
  unfold cleanName at hprev ⊢
  unfold submitChecked
  dsimp only
  rw [hprev]
  dsimp only
  rw [if_neg hrate, if_neg himp]
  by_cases h3 : (⌊m⌋ : ℚ) > prev.money ∨ (z : ℚ) > prev.rebirth
  · rw [if_pos h3]
    exact ⟨rfl, rfl, fun _ => rfl, fun hc => absurd h3 hc⟩
  · rw [if_neg h3]
    refine ⟨rfl, rfl, fun hc => absurd hc h3, fun _ => ⟨rfl, ?_⟩⟩
    exact (perm_sortTrunc_of_le hlen).mem_iff.2 (findByName?_eq_some hprev).1

/-- Witness for `merge_replace_iff`: the non-improving case leaves the
stored entry, timestamp included, in the persisted collection. -/
theorem merge_replace_iff_witness :
    (postSubmit ⟨some "alice", .num 50, .num 0⟩ [⟨"alice", 100, 0, 0⟩] 10000).saved =
      some (sortTrunc [⟨"alice", 100, 0, 0⟩]) ∧
    (⟨"alice", 100, 0, 0⟩ : Entry) ∈ sortTrunc [⟨"alice", 100, 0, 0⟩] :=
  (merge_replace_iff "alice" 50 (.num 0) 0 ⟨"alice", 100, 0, 0⟩
      [⟨"alice", 100, 0, 0⟩] 10000 (by decide) (by decide) (by decide) (by decide)
      (by decide) (by decide) (by decide) (by decide) (by decide)).2.2.2 (by decide)

/-! ## C8: a discarded submission still sorts, truncates and persists -/

/-- C8 counterexample: a discarded (accepted-but-non-improving) submission
does perform a persistence write, and the written snapshot is the
re-sorted collection — not byte-for-byte the prior snapshot: with the
stored file holding [dave, erin] (unsorted, erin ranks higher), a
non-improving submission by dave persists [erin, dave] ≠ [dave, erin]. -/
theorem discard_persists_cex :
    (postSubmit ⟨some "dave", .num 3, .num 0⟩
        [⟨"dave", 5, 0, 0⟩, ⟨"erin", 10, 0, 0⟩] 10000).saved =
      some [⟨"erin", 10, 0, 0⟩, ⟨"dave", 5, 0, 0⟩] ∧
    some [(⟨"erin", 10, 0, 0⟩ : Entry), ⟨"dave", 5, 0, 0⟩] ≠
      some [⟨"dave", 5, 0, 0⟩, ⟨"erin", 10, 0, 0⟩] ∧
    (postSubmit ⟨some "dave", .num 3, .num 0⟩
        [⟨"dave", 5, 0, 0⟩, ⟨"erin", 10, 0, 0⟩] 10000).saved ≠ none := by
  decide

/-- C8 amended: a discarded (accepted-but-non-improving) submission falls
through to the same sort–truncate–persist tail as a mutation: the durable
snapshot after a no-op discard is the re-sorted, truncated collection —
a permutation of the prior entries when the collection is within the
retention bound — while rejected submissions (and only those) skip
persistence. -/
theorem discard_persists_spec (nm : String) (m : ℚ) (rb : JsVal) (z : ℤ) (prev : Entry)
    (board : List Entry) (tnow : ℚ)
    (htrim : ¬ jsTrim nm = "") (h0 : ¬ m < 0) (hcap : ¬ m > 5000000000)
    (hz : (jsOr0 rb).intValue? = some z) (hz0 : ¬ z < 0)
    (hprev : findByName? (cleanName nm) board = some prev)
    (hrate : ¬ (tnow - prev.updatedAt) / 1000 < 5)
    (himp : ¬ ((⌊m⌋ : ℚ) - prev.money >
        150000 * min ((tnow - prev.updatedAt) / 1000) 3600 * 1.5 ∧
      (⌊m⌋ : ℚ) - prev.money > 100000000))
    (hnoimp : ¬ ((⌊m⌋ : ℚ) > prev.money ∨ (z : ℚ) > prev.rebirth))
    (hlen : board.length ≤ 100) :
    (postSubmit ⟨some nm, .num m, rb⟩ board tnow).saved = some (sortTrunc board) ∧
    List.Perm (sortTrunc board) board ∧
    (postSubmit ⟨some nm, .num m, rb⟩ board tnow).status = 200 := by
  rw [postSubmit_eq_submitChecked nm m rb board tnow htrim h0 hcap hz hz0]
  unfold cleanName at hprev
  unfold submitChecked
  dsimp only
  rw [hprev]
  dsimp only
  rw [if_neg hrate, if_neg himp, if_neg hnoimp]
  exact ⟨rfl, perm_sortTrunc_of_le hlen, rfl⟩

/-- Witness for `discard_persists_spec` at the unsorted two-entry board. -/
theorem discard_persists_spec_witness :
    (postSubmit ⟨some "dave", .num 3, .num 0⟩
        [⟨"dave", 5, 0, 0⟩, ⟨"erin", 10, 0, 0⟩] 10000).saved =
      some (sortTrunc [⟨"dave", 5, 0, 0⟩, ⟨"erin", 10, 0, 0⟩]) ∧
    List.Perm (sortTrunc [⟨"dave", 5, 0, 0⟩, ⟨"erin", 10, 0, 0⟩])
      [⟨"dave", 5, 0, 0⟩, ⟨"erin", 10, 0, 0⟩] ∧
    (postSubmit ⟨some "dave", .num 3, .num 0⟩
        [⟨"dave", 5, 0, 0⟩, ⟨"erin", 10, 0, 0⟩] 10000).status = 200 :=
  discard_persists_spec "dave" 3 (.num 0) 0 ⟨"dave", 5, 0, 0⟩
    [⟨"dave", 5, 0, 0⟩, ⟨"erin", 10, 0, 0⟩] 10000 (by decide) (by decide) (by decide)
    (by decide) (by decide) (by decide) (by decide) (by decide) (by decide) (by decide)

/-! ## C7: tier validation -/

/-- After the history/merge phase is reached, the handler can no longer
answer the InvalidTier rejection: its possible results are the 429
rate-limit response, the implausible-increase response, or the 200
success. -/
theorem submitChecked_ne_tierReject (e : Entry) (b : List Entry) :
    submitChecked e b ≠ ⟨400, .msg "환생 정보가 올바르지 않습니다.", none⟩ := by
  unfold submitChecked
  rcases findByName? e.name b with _ | prev
  · dsimp only
    intro hcontra
    exact absurd (congrArg PostResult.status hcontra) (by simp [finishBoard])
  · dsimp only
    split_ifs
    · intro hcontra
      exact absurd (congrArg PostResult.status hcontra) (by decide)
    · intro hcontra
      exact absurd (congrArg PostResult.body hcontra) (by decide)
    · intro hcontra
      exact absurd (congrArg PostResult.status hcontra) (by simp [finishBoard])
    · intro hcontra
      exact absurd (congrArg PostResult.status hcontra) (by simp [finishBoard])

/-- C7 counterexample: a `tier` that does not coerce to a non-negative
integer — `Number` of a non-numeric string is NaN — is NOT rejected as
InvalidTier: `Number(rebirth) || 0` replaces the falsy NaN by 0, and the
submission is accepted (status 200) and stored with tier 0. -/
theorem nan_tier_accepted_cex :
    postSubmit ⟨some "carol", .num 100, .nan⟩ [] 0 =
      ⟨200, .okJson, some [⟨"carol", 100, 0, 0⟩]⟩ ∧
    (postSubmit ⟨some "carol", .num 100, .nan⟩ [] 0).body ≠
      .msg "환생 정보가 올바르지 않습니다." := by
  decide

/-- C7 amended: for a submission passing the name and score checks, the
InvalidTier rejection is returned exactly when the tier after the `|| 0`
defaulting (which maps NaN — absent or non-numeric tiers — and 0 to 0) is
not a non-negative integer, i.e. only for truthy non-integer or negative
numbers; a NaN tier behaves exactly like tier 0. -/
theorem tier_rejection_spec (nm : String) (m : ℚ) (rb : JsVal)
    (board : List Entry) (tnow : ℚ)
    (htrim : ¬ jsTrim nm = "") (h0 : ¬ m < 0) (hcap : ¬ m > 5000000000) :
    ((postSubmit ⟨some nm, .num m, rb⟩ board tnow =
        ⟨400, .msg "환생 정보가 올바르지 않습니다.", none⟩) ↔
      ¬ ∃ z : ℤ, (jsOr0 rb).intValue? = some z ∧ 0 ≤ z) ∧
    postSubmit ⟨some nm, .num m, .nan⟩ board tnow =
      postSubmit ⟨some nm, .num m, .num 0⟩ board tnow := by
  constructor
  · rcases hv : (jsOr0 rb).intValue? with _ | z
    · refine iff_of_true ?_ ?_
      · unfold postSubmit
        dsimp only
        rw [if_neg htrim, if_neg h0, if_neg hcap, hv]
      · rintro ⟨z, hz, _⟩
        exact Option.noConfusion hz
    · by_cases hzneg : z < 0
      · refine iff_of_true ?_ ?_
        · unfold postSubmit
          dsimp only
          rw [if_neg htrim, if_neg h0, if_neg hcap, hv]
          dsimp only
          rw [if_pos hzneg]
        · rintro ⟨z', hz', hz0'⟩
          obtain rfl : z = z' := Option.some_inj.mp hz'
          omega
      · refine iff_of_false ?_ ?_
        · rw [postSubmit_eq_submitChecked nm m rb board tnow htrim h0 hcap hv hzneg]
          exact submitChecked_ne_tierReject _ _
        · intro hno
          exact hno ⟨z, rfl, by omega⟩
  · rfl

/-- Witness for `tier_rejection_spec`: a NaN tier is processed exactly as
tier 0. -/
theorem tier_rejection_spec_witness :
    postSubmit ⟨some "dana", .num 5, .nan⟩ [] 0 =
      postSubmit ⟨some "dana", .num 5, .num 0⟩ [] 0 :=
  (tier_rejection_spec "dana" 5 (.num 7) [] 0 (by decide) (by decide) (by decide)).2

/-! ## C3: persistence is a direct overwrite, not write-temp-then-rename -/

/-- The canonical path of the persisted collection (server.js line 7). -/
def dbPath : String := "leaderboard.json"

/-- An abstract file-system operation available to the persistence layer. -/
inductive FsOp where
  | writeFile (path : String) (data : List Entry)
  | rename (src dst : String)
deriving DecidableEq

/-- Embedding of `saveLeaderboard(data)` (server.js lines 57–59): the
sequence of file-system operations it performs — a single synchronous
`writeFileSync` of the serialized collection to the canonical path.  No
temporary file and no rename occur. -/
def saveLeaderboardOps (data : List Entry) : List FsOp :=
  [.writeFile dbPath data]

/-- State of one file: absent, fully holding a collection, or torn —
holding the bytes of an interrupted, incomplete write. -/
inductive FileState where
  | absent
  | full (data : List Entry)
  | torn
deriving DecidableEq

/-- Effect of one completed operation on the file system (a map from paths
to file states): a completed write replaces the target; a rename moves the
source over the destination atomically. -/
def runOp (fs : String → FileState) : FsOp → String → FileState
  | .writeFile p d => fun q => if q = p then .full d else fs q
  | .rename src dst => fun q =>
      if q = dst then fs src else if q = src then .absent else fs q

/-- Effect of an operation interrupted by a crash: a write caught mid-way
leaves a torn file at its target; a rename is atomic, so an interrupted
rename leaves the file system unchanged. -/
def crashOp (fs : String → FileState) : FsOp → String → FileState
  | .writeFile p _ => fun q => if q = p then .torn else fs q
  | .rename _ _ => fs

/-- Every file-system state observable while a sequence of operations
runs: before any operation, with any single operation interrupted
mid-way, and after each completed prefix. -/
def statesDuring (fs : String → FileState) : List FsOp → List (String → FileState)
  | [] => [fs]
  | op :: ops => fs :: crashOp fs op :: statesDuring (runOp fs op) ops

/-- The contents of the canonical path at every state observable while
`saveLeaderboard(data)` runs, started from a file system whose canonical
path holds `init`. -/
def dbStatesDuringSave (init : FileState) (data : List Entry) : List FileState :=
  (statesDuring (fun q => if q = dbPath then init else .absent)
      (saveLeaderboardOps data)).map fun s => s dbPath

/-- The write-to-temporary-then-atomic-rename discipline that C3 asserts
of `save`: the canonical path is never the direct target of a write, and
some rename of a distinct (temporary) path onto the canonical path
occurs. -/
def atomicReplaceShape (ops : List FsOp) : Prop :=
  (∀ d : List Entry, FsOp.writeFile dbPath d ∉ ops) ∧
  ∃ src, src ≠ dbPath ∧ FsOp.rename src dbPath ∈ ops

/-- C3 counterexample: `saveLeaderboard` is not of the
write-temporary-then-atomically-rename shape — it writes the canonical
location directly — and a crash in the middle of that single write leaves
a torn canonical file that is neither the complete prior snapshot nor the
complete new one. -/
theorem save_not_atomic_cex :
    ¬ atomicReplaceShape (saveLeaderboardOps []) ∧
    FileState.torn ∈ dbStatesDuringSave (.full [⟨"alice", 1, 0, 0⟩]) [] ∧
    FileState.torn ≠ FileState.full [⟨"alice", 1, 0, 0⟩] ∧
    FileState.torn ≠ FileState.full [] := by
  refine ⟨?_, by decide, by decide, by decide⟩
  rintro ⟨hw, -⟩
  exact hw [] (by decide)

/-- C3 amended: `saveLeaderboard(collection)` performs exactly one direct
`writeFileSync` of the serialized collection onto the canonical location —
no temporary file, no rename.  A completed run leaves the complete new
snapshot, but the observable states during the save are exactly
[prior, torn, new]: a crash or concurrent read in the middle of the write
observes a torn (partially written) snapshot. -/
theorem save_direct_write (init : FileState) (data : List Entry) :
    saveLeaderboardOps data = [.writeFile dbPath data] ∧
    dbStatesDuringSave init data = [init, .torn, .full data] := by
  refine ⟨rfl, ?_⟩
  unfold dbStatesDuringSave saveLeaderboardOps
  simp [statesDuring, runOp, crashOp]

/-! ## C10: identity is the trimmed, 40-character-truncated name -/

/-- C10: submitter identity is the name after trimming and truncation to
40 characters.  For any two raw names with equal cleaned forms, the first
(valid) submission on an empty collection stores exactly one entry under
the cleaned name, and the second submission — whatever its outcome
(update, no-op discard, rate-limit, or implausible-increase rejection) —
leaves the collection with exactly that one stored identity rather than
creating a second entry. -/
theorem identity_by_clean_name (n1 n2 : String) (m1 m2 : ℚ) (rb1 rb2 : JsVal)
    (z1 z2 : ℤ) (t1 t2 : ℚ)
    (ht1 : ¬ jsTrim n1 = "") (hm1 : ¬ m1 < 0) (hc1 : ¬ m1 > 5000000000)
    (hz1 : (jsOr0 rb1).intValue? = some z1) (hz01 : ¬ z1 < 0)
    (ht2 : ¬ jsTrim n2 = "") (hm2 : ¬ m2 < 0) (hc2 : ¬ m2 > 5000000000)
    (hz2 : (jsOr0 rb2).intValue? = some z2) (hz02 : ¬ z2 < 0)
    (hsame : cleanName n1 = cleanName n2) :
    (postSubmit ⟨some n1, .num m1, rb1⟩ [] t1).saved =
      some [⟨cleanName n1, (⌊m1⌋ : ℚ), (z1 : ℚ), t1⟩] ∧
    ((postSubmit ⟨some n2, .num m2, rb2⟩
          [⟨cleanName n1, (⌊m1⌋ : ℚ), (z1 : ℚ), t1⟩] t2).saved.getD
        [⟨cleanName n1, (⌊m1⌋ : ℚ), (z1 : ℚ), t1⟩]).map Entry.name =
      [cleanName n1] := by
  constructor
  · rw [postSubmit_eq_submitChecked n1 m1 rb1 [] t1 ht1 hm1 hc1 hz1 hz01]
    rfl
  · rw [postSubmit_eq_submitChecked n2 m2 rb2 _ t2 ht2 hm2 hc2 hz2 hz02]
    unfold cleanName at hsame ⊢
    unfold submitChecked
    dsimp only [findByName?]
    rw [if_pos hsame]
    dsimp only
    split_ifs with h1 h2 h3
    · rfl
    · rfl
    · simp only [setFirstByName, if_pos hsame]
      simp [finishBoard, sortTrunc, hsame]
    · rfl

/-- Witness for `identity_by_clean_name`: the raw names " bob " and "bob"
share the cleaned form "bob" and address the same stored entry. -/
theorem identity_by_clean_name_witness :
    (postSubmit ⟨some " bob ", .num 10, .num 0⟩ [] 0).saved =
      some [⟨cleanName " bob ", 10, 0, 0⟩] ∧
    ((postSubmit ⟨some "bob", .num 7, .num 0⟩
          [⟨cleanName " bob ", 10, 0, 0⟩] 10000).saved.getD
        [⟨cleanName " bob ", 10, 0, 0⟩]).map Entry.name =
      [cleanName " bob "] :=
  identity_by_clean_name " bob " "bob" 10 7 (.num 0) (.num 0) 0 0 0 10000
    (by decide) (by decide) (by decide) (by decide) (by decide)
    (by decide) (by decide) (by decide) (by decide) (by decide) (by decide)

/-! ## C1: serialized load–merge–save cycles lose no update -/

/-- One submission together with its arrival time (the value `Date.now()`
takes at the start of its handler run). -/
structure TimedReq where
  req : Req
  time : ℚ
deriving DecidableEq

/-- Sequential composition of complete load–merge–save cycles: each
handler run loads the collection left behind by the previous cycle, and a
run that rejects (saves nothing) leaves it unchanged.  The POST handler is
synchronous JavaScript — `readFileSync`/`writeFileSync` and no `await` —
so the Node.js event loop executes each cycle to completion before the
next begins: concurrent submissions are processed exactly as some such
serialization, in arrival order. -/
def processAll (board : List Entry) : List TimedReq → List Entry
  | [] => board
  | tr :: rest =>
      processAll ((postSubmit tr.req board tr.time).saved.getD board) rest

/-- Structural validity of one submission, as a decidable check: a string
name that is non-empty after trimming, a finite score in `[0, 5·10⁹]`,
and a tier whose `|| 0` defaulting yields a non-negative integer. -/
def validReq (r : Req) : Bool :=
  (match r.name with
   | some nm => !(jsTrim nm == "")
   | none => false) &&
  (match r.money with
   | .num m => !(decide (m < 0)) && !(decide (m > 5000000000))
   | _ => false) &&
  (match (jsOr0 r.rebirth).intValue? with
   | some z => !(decide (z < 0))
   | none => false)

/-- The cleaned identity under which a timed submission is stored (empty
when the name is absent). -/
def cleanOf (tr : TimedReq) : String :=
  match tr.req.name with
  | some nm => cleanName nm
  | none => ""

/-- Unpacking of `validReq`. -/
theorem validReq_spec {r : Req} (hv : validReq r = true) :
    ∃ nm m z, r.name = some nm ∧ ¬ jsTrim nm = "" ∧ r.money = .num m ∧
      ¬ m < 0 ∧ ¬ m > 5000000000 ∧
      (jsOr0 r.rebirth).intValue? = some z ∧ ¬ z < 0 := by
  obtain ⟨n?, mv, rb⟩ := r
  unfold validReq at hv
  rcases n? with _ | nm
  · simp at hv
  rcases mv with m | _ | _ | _
  · rcases hz : (jsOr0 rb).intValue? with _ | z <;> rw [hz] at hv
    · simp at hv
    · simp only [Bool.and_eq_true, Bool.not_eq_true', beq_eq_false_iff_ne,
        ne_eq, decide_eq_false_iff_not] at hv
      exact ⟨nm, m, z, rfl, hv.1.1, rfl, hv.1.2.1, hv.1.2.2, rfl, hv.2⟩
  · simp at hv
  · simp at hv
  · simp at hv

/-- A structurally valid submission whose cleaned name is not yet on a
board of fewer than 100 entries is accepted, and the persisted names are a
permutation of the prior names plus the cleaned name: nothing is evicted
and nothing is overwritten. -/
theorem postSubmit_fresh (r : Req) (nm : String) (m : ℚ) (z : ℤ)
    (board : List Entry) (tnow : ℚ)
    (hn : r.name = some nm) (hmn : r.money = .num m)
    (htrim : ¬ jsTrim nm = "") (h0 : ¬ m < 0) (hcap : ¬ m > 5000000000)
    (hz : (jsOr0 r.rebirth).intValue? = some z) (hz0 : ¬ z < 0)
    (hfresh : cleanName nm ∉ board.map Entry.name)
    (hlen : board.length < 100) :
    ∃ b', (postSubmit r board tnow).saved = some b' ∧
      List.Perm (b'.map Entry.name) (board.map Entry.name ++ [cleanName nm]) := by
  obtain ⟨a, b, c⟩ := r
  dsimp only at hn hmn hz
  subst hn
  subst hmn
  rw [postSubmit_eq_submitChecked nm m c board tnow htrim h0 hcap hz hz0]
  unfold submitChecked
  have hnone : findByName? (jsTake (jsTrim nm) 40) board = none := by
    refine findByName?_eq_none.2 ?_
    unfold cleanName at hfresh
    exact hfresh
  dsimp only
  rw [hnone]
  refine ⟨_, rfl, ?_⟩
  have hplen :
      (board ++ [(⟨jsTake (jsTrim nm) 40, (⌊m⌋ : ℚ), (z : ℚ), tnow⟩ : Entry)]).length ≤ 100 := by
    simp only [List.length_append, List.length_cons, List.length_nil]
    omega
  have hperm := (perm_sortTrunc_of_le hplen).map Entry.name
  rw [List.map_append] at hperm
  simpa [cleanName] using hperm

/-- Sequentially processing pairwise-fresh, pairwise-distinct valid
submissions appends exactly their cleaned names to the board's names, up
to permutation. -/
theorem processAll_names (trs : List TimedReq) (board : List Entry)
    (hv : ∀ tr ∈ trs, validReq tr.req = true)
    (hd : (trs.map cleanOf).Nodup)
    (hfresh : ∀ tr ∈ trs, cleanOf tr ∉ board.map Entry.name)
    (hlen : board.length + trs.length ≤ 100) :
    List.Perm ((processAll board trs).map Entry.name)
      (board.map Entry.name ++ trs.map cleanOf) := by
  induction trs generalizing board with
  | nil =>
    rw [processAll]
    simp
  | cons tr rest ih =>
    obtain ⟨nm, m, z, hn, htrim, hmn, h0, hcap, hz, hz0⟩ :=
      validReq_spec (hv tr (List.mem_cons_self _ _))
    have hco : cleanOf tr = cleanName nm := by
      unfold cleanOf
      rw [hn]
    have hstep := postSubmit_fresh tr.req nm m z board tr.time hn hmn
      htrim h0 hcap hz hz0
      (by rw [← hco]; exact hfresh tr (List.mem_cons_self _ _))
      (by simp at hlen; omega)
    obtain ⟨b', hb', hperm⟩ := hstep
    have hrest : processAll board (tr :: rest) = processAll b' rest := by
      rw [processAll, hb']
      rfl
    rw [hrest]
    have hlen' : b'.length = board.length + 1 := by
      have h3 := hperm.length_eq
      rw [List.length_map, List.length_append, List.length_map] at h3
      simpa using h3
    have hd' : (rest.map cleanOf).Nodup := (List.nodup_cons.mp (by simpa using hd)).2
    have hne : ∀ tr' ∈ rest, cleanOf tr' ≠ cleanOf tr := by
      intro tr' htr'
      have hhead : cleanOf tr ∉ rest.map cleanOf :=
        (List.nodup_cons.mp (by simpa using hd)).1
      intro hcontra
      exact hhead (hcontra ▸ List.mem_map_of_mem cleanOf htr')
    have hfresh' : ∀ tr' ∈ rest, cleanOf tr' ∉ b'.map Entry.name := by
      intro tr' htr' hcontra
      have hmem := hperm.mem_iff.1 hcontra
      rcases List.mem_append.1 hmem with hmem1 | hmem2
      · exact hfresh tr' (List.mem_cons_of_mem _ htr') hmem1
      · have : cleanOf tr' = cleanName nm := by simpa using hmem2
        exact hne tr' htr' (this.trans hco.symm)
    have hmain := ih b' (fun tr' h => hv tr' (List.mem_cons_of_mem _ h)) hd' hfresh'
      (by simp at hlen; omega)
    refine hmain.trans ?_
    have h2 : List.Perm (b'.map Entry.name ++ rest.map cleanOf)
        ((board.map Entry.name ++ [cleanName nm]) ++ rest.map cleanOf) :=
      hperm.append_right _
    refine h2.trans ?_
    rw [List.append_assoc, List.map_cons, hco]
    exact List.Perm.refl _

/-- C1: the POST handler body is synchronous (no `await`; `readFileSync`
and `writeFileSync`), so the Node.js event loop runs each load-merge-save
cycle as one indivisible unit and concurrent submissions execute as some
serialization (`processAll`).  Processing N individually valid
submissions with N pairwise-distinct cleaned names, N ≤ 100, from the
empty collection preserves all of them: every submitted name is present
in the final persisted collection — no update is lost. -/
theorem no_lost_updates (trs : List TimedReq)
    (hv : ∀ tr ∈ trs, validReq tr.req = true)
    (hd : (trs.map cleanOf).Nodup)
    (hn : trs.length ≤ 100) :
    ∀ tr ∈ trs, cleanOf tr ∈ (processAll [] trs).map Entry.name := by
  intro tr htr
  have h := processAll_names trs [] hv hd (by simp) (by simpa using hn)
  rw [h.mem_iff]
  rw [List.map_nil, List.nil_append]
  exact List.mem_map_of_mem cleanOf htr

/-- Witness for `no_lost_updates`: two concurrent distinct-name
submissions; both names persist. -/
theorem no_lost_updates_witness :
    cleanOf ⟨⟨some "amy", .num 10, .num 0⟩, 0⟩ ∈
      (processAll [] [⟨⟨some "amy", .num 10, .num 0⟩, 0⟩,
        ⟨⟨some "ben", .num 20, .num 1⟩, 50000⟩]).map Entry.name :=
  no_lost_updates
    [⟨⟨some "amy", .num 10, .num 0⟩, 0⟩, ⟨⟨some "ben", .num 20, .num 1⟩, 50000⟩]
    (by decide) (by decide) (by decide)
    ⟨⟨some "amy", .num 10, .num 0⟩, 0⟩ (by decide)
